import Mathlib

/-!
Verification of the morph-rt kernel core against its specification.

The definitions below are a shallow embedding of the C sources:
machine integers become `Nat` with explicit `% 2^32` where wrap matters,
intrusive doubly-linked lists become Lean `List`s of their members in
link order, `NULL`-able pointers become `Option`, and functions that the
C code can leave looping forever return `Option` (with `none` for the
non-returning case).  Each definition names the C function it embeds.
-/

set_option maxRecDepth 10000

-- ======================================================================
-- Wrap-safe time arithmetic (src/kernel inc time_utils.h)
-- ======================================================================

/-- Modulus of the free-running 32-bit tick counter. -/
def U32 : Nat := 2 ^ 32

/-- Unsigned 32-bit subtraction `a - b` (wraps modulo `2^32`). -/
def u32_sub (a b : Nat) : Nat := ((a % U32) + U32 - (b % U32)) % U32

/-- Reinterpretation of a `uint32_t` value as `int32_t` (the `(int32_t)(a-b)`
casts in time_utils.h). -/
def toInt32 (x : Nat) : Int :=
  if x % U32 < 2 ^ 31 then (x % U32 : Int) else (x % U32 : Int) - (U32 : Int)

/-- Embeds `time_lte` from time_utils.h: `(int32_t)(a - b) <= 0`. -/
def time_lte (a b : Nat) : Bool := decide (toInt32 (u32_sub a b) ≤ 0)

/-- Embeds `time_lt` from time_utils.h: `(int32_t)(a - b) < 0`. -/
def time_lt (a b : Nat) : Bool := decide (toInt32 (u32_sub a b) < 0)

/-- Embeds `time_gte` from time_utils.h: `!time_lt(a,b)`. -/
def time_gte (a b : Nat) : Bool := !time_lt a b

/-- Embeds `time_gt` from time_utils.h: `!time_lte(a,b)`. -/
def time_gt (a b : Nat) : Bool := !time_lte a b

/-- Embeds `ticks_until` from time_utils.h:
`dt = (int32_t)(deadline - now); dt <= 0 ? 0 : dt`. -/
def ticks_until (deadline now : Nat) : Nat :=
  let dt := toInt32 (u32_sub deadline now)
  if dt ≤ 0 then 0 else dt.toNat

-- ======================================================================
-- Scheduler data model (src/kernel/src/scheduler.c)
-- ======================================================================

/-- Task states from kernel.h (`task_state_t`). -/
inductive task_state_t
  | TASK_READY | TASK_RUNNING | TASK_BLOCKED | TASK_SUSPENDED | TASK_DELETED
  deriving DecidableEq, Repr

/-- Wake reasons (`wake_reason_t`). -/
inductive wake_reason_t
  | WAKE_REASON_DATA_AVAILABLE | WAKE_REASON_TIMEOUT
  | WAKE_REASON_SIGNAL | WAKE_REASON_NONE
  deriving DecidableEq, Repr

open task_state_t wake_reason_t

/-- Slice of the task control block (task.h) used by the tick machinery:
`wake_tick`, `waiting_on` (modelled as a flag: non-nil or nil),
`wake_reason` and `state`, plus an identifier standing for the TCB's
address. -/
structure TickTCB where
  id : Nat
  wake_tick : Nat
  waiting_on : Bool
  wake_reason : wake_reason_t
  state : task_state_t
  deriving DecidableEq, Repr

/-- Scheduler state touched by `scheduler_tick` / `scheduler_set_timeout`:
the tick counter, the two delayed lists (in list order, head first) and
the set of ready tasks.  The per-priority ready queues are flattened into
one list here because the tick logic only ever appends to them
(`scheduler_add_task` inserts at the tail of the task's band). -/
structure SchedState where
  tick_now : Nat
  delayed_cur : List TickTCB
  delayed_ovf : List TickTCB
  ready : List TickTCB
  deriving DecidableEq, Repr

/-- Embeds `scheduler_expire_timeout` (scheduler.c): if `waiting_on` is
non-nil, unlink the wait link, set `wake_reason = WAKE_REASON_TIMEOUT`,
clear `waiting_on`; then `scheduler_add_task` (state becomes Ready). -/
def scheduler_expire_timeout (t : TickTCB) : TickTCB :=
  let t := if t.waiting_on then
    { t with wake_reason := WAKE_REASON_TIMEOUT, waiting_on := false }
  else t
  { t with state := TASK_READY }

/-- Embeds the drain loop of `scheduler_tick`: pop tasks from the head of
`delayed_cur` while `!time_gt(head.wake_tick, now)`, expiring each.
Returns the remaining list and the expired tasks in expiry order. -/
def drain_delayed (now : Nat) : List TickTCB → List TickTCB × List TickTCB
  | [] => ([], [])
  | t :: rest =>
    if time_gt t.wake_tick now then (t :: rest, [])
    else
      let (r, e) := drain_delayed now rest
      (r, t :: e)

/-- Embeds `scheduler_tick` (scheduler.c lines 151-179).  The C code reads
`now = tick_now++` (post-increment: `now` is the value BEFORE the
increment), drains `delayed_cur`, and when `now == 0` swaps the two
delayed lists and drains again. -/
def scheduler_tick (s : SchedState) : SchedState :=
  let now := s.tick_now
  let tick' := (s.tick_now + 1) % U32
  let (cur1, exp1) := drain_delayed now s.delayed_cur
  let s1 : SchedState :=
    { tick_now := tick', delayed_cur := cur1, delayed_ovf := s.delayed_ovf,
      ready := s.ready ++ exp1.map scheduler_expire_timeout }
  if now = 0 then
    let (cur2, exp2) := drain_delayed now s1.delayed_ovf
    { s1 with delayed_cur := cur2, delayed_ovf := s1.delayed_cur,
              ready := s1.ready ++ exp2.map scheduler_expire_timeout }
  else s1

/-- Embeds `delayed_insert_sorted` (scheduler.c): insert before the first
element whose `wake_tick` is not `time_lt`-below ours (`time_lte t q`),
else at the tail. -/
def delayed_insert_sorted (t : TickTCB) : List TickTCB → List TickTCB
  | [] => [t]
  | q :: rest =>
    if time_lte t.wake_tick q.wake_tick then t :: q :: rest
    else q :: delayed_insert_sorted t rest

/-- Embeds `scheduler_set_timeout` (scheduler.c): store the wake tick and
insert the task into `delayed_ovf` when `time_lt(wake_tick, now)`, else
into `delayed_cur`, sorted. -/
def scheduler_set_timeout (t : TickTCB) (wake_tick : Nat) (s : SchedState) :
    SchedState :=
  let t := { t with wake_tick := wake_tick }
  if time_lt wake_tick s.tick_now then
    { s with delayed_ovf := delayed_insert_sorted t s.delayed_ovf }
  else
    { s with delayed_cur := delayed_insert_sorted t s.delayed_cur }

-- ======================================================================
-- Claim C1 scenario: arm a 5-tick timeout at tick 100 (spec scenario 2)
-- ======================================================================

/-- The blocked task of spec scenario 2: blocked in `queue_receive` with a
timeout armed, so `waiting_on` is non-nil. -/
def c1_task : TickTCB :=
  { id := 1, wake_tick := 0, waiting_on := true,
    wake_reason := WAKE_REASON_NONE, state := TASK_BLOCKED }

/-- Scheduler state at `tick_now = 100` with the task freshly armed for
`wake_tick = 100 + 5` by `scheduler_set_timeout` (the `wake = now +
remaining` computed by `queue_receive(timeout = 5)`). -/
def c1_armed : SchedState :=
  scheduler_set_timeout c1_task 105
    { tick_now := 100, delayed_cur := [], delayed_ovf := [], ready := [] }

/-- State after driving `n` tick interrupts. -/
def c1_after (n : Nat) : SchedState := scheduler_tick^[n] c1_armed

-- ======================================================================
-- Mutex with priority inheritance (mutex.c, scheduler.c)
-- ======================================================================

/-- Identifier standing for a TCB address. -/
abbrev Tid := Nat

/-- Value of the `MAX_PRIORITY` constant (config.h). -/
def MAX_PRIORITY : Nat := 7

/-- Slice of the TCB used by the mutex layer: `base_priority`,
`effective_priority` and `state`. -/
structure PTCB where
  base_priority : Nat
  effective_priority : Nat
  state : task_state_t
  deriving DecidableEq, Repr

/-- Mutex control block (mutex.h): owner, FIFO wait-list,
`original_priority` with `MAX_PRIORITY` as the "not inherited" sentinel. -/
structure MutexCB where
  owner : Option Tid
  waiting_tasks : List Tid
  original_priority : Nat
  deriving DecidableEq, Repr

/-- Kernel state for the mutex scenarios: the TCBs, the per-priority
ready queues (band index to list of tids, head first) and one mutex. -/
structure MKernel where
  tasks : Tid → PTCB
  rq : Nat → List Tid
  mutex : MutexCB

/-- Embeds `scheduler_boost_priority` (scheduler.c lines 230-247).  Note
the guard: when `new_priority >= task->effective_priority` the function
returns WITHOUT changing anything (it can only lower the priority
number). -/
def scheduler_boost_priority (k : MKernel) (t : Tid) (new_priority : Nat) :
    MKernel :=
  let tcb := k.tasks t
  if new_priority ≥ tcb.effective_priority then k
  else
    let rq1 := if tcb.state = TASK_READY then
      fun p => (k.rq p).filter (· ≠ t) else k.rq
    let tasks1 := fun x => if x = t then
      { tcb with effective_priority := new_priority } else k.tasks x
    let rq2 := if tcb.state = TASK_READY then
      fun p => if p = new_priority then rq1 p ++ [t] else rq1 p else rq1
    { k with tasks := tasks1, rq := rq2 }

/-- Embeds `mutex_apply_priority_inheritance` (mutex.c): take the minimum
`effective_priority` over the waiters (starting from `MAX_PRIORITY`); if
it is strictly below the owner's, snapshot the owner's `base_priority`
into `original_priority` when the sentinel is still set, then boost. -/
def mutex_apply_priority_inheritance (k : MKernel) : MKernel :=
  match k.mutex.owner with
  | none => k
  | some o =>
    if k.mutex.waiting_tasks = [] then k
    else
      let highest := k.mutex.waiting_tasks.foldl
        (fun h w => min (k.tasks w).effective_priority h) MAX_PRIORITY
      if highest < (k.tasks o).effective_priority then
        let m1 := if k.mutex.original_priority = MAX_PRIORITY then
          { k.mutex with original_priority := (k.tasks o).base_priority }
        else k.mutex
        scheduler_boost_priority { k with mutex := m1 } o highest
      else k

/-- Embeds `mutex_restore_priority` (mutex.c): when an owner exists and
`original_priority` is not the sentinel, call `scheduler_boost_priority`
with the saved priority and reset the sentinel.  (Because of the guard in
`scheduler_boost_priority`, raising the number back is a no-op.) -/
def mutex_restore_priority (k : MKernel) : MKernel :=
  match k.mutex.owner with
  | none => k
  | some o =>
    if k.mutex.original_priority = MAX_PRIORITY then k
    else
      let k1 := scheduler_boost_priority k o k.mutex.original_priority
      { k1 with mutex := { k1.mutex with original_priority := MAX_PRIORITY } }

/-- Mutex lock results (mutex.h). -/
inductive mutex_result_t
  | MUTEX_OK | MUTEX_ERROR_NULL | MUTEX_ERROR_TIMEOUT
  | MUTEX_ERROR_NOT_OWNER | MUTEX_ERROR_RECURSIVE
  deriving DecidableEq, Repr

open mutex_result_t

/-- Embeds the body of `mutex_lock` up to its suspension point, executed
by task `cur` with a non-zero timeout whose deadline has not yet passed
(`remaining != 0`): free mutex is acquired; a lock by the owner is
`Recursive`; otherwise the task is pushed on the wait-list, priority
inheritance is applied and the task blocks. -/
def mutex_lock_step (k : MKernel) (cur : Tid) : MKernel × Option mutex_result_t :=
  match k.mutex.owner with
  | none => ({ k with mutex := { k.mutex with owner := some cur } }, some MUTEX_OK)
  | some o =>
    if o = cur then (k, some MUTEX_ERROR_RECURSIVE)
    else
      let k1 := { k with
        mutex := { k.mutex with waiting_tasks := k.mutex.waiting_tasks ++ [cur] } }
      let k2 := mutex_apply_priority_inheritance k1
      let k3 := { k2 with tasks := fun x => if x = cur then
        { k2.tasks x with state := TASK_BLOCKED } else k2.tasks x }
      (k3, none)

/-- Embeds `mutex_wake_one_waiter` (mutex.c): pop the wait-list head,
cancel its timeout and add it to the ready queue. -/
def mutex_wake_one_waiter (k : MKernel) : MKernel :=
  match k.mutex.waiting_tasks with
  | [] => k
  | t :: rest =>
    let tasks1 := fun x => if x = t then
      { k.tasks x with state := TASK_READY } else k.tasks x
    let prio := (k.tasks t).effective_priority
    { tasks := tasks1,
      rq := fun p => if p = prio then k.rq p ++ [t] else k.rq p,
      mutex := { k.mutex with waiting_tasks := rest } }

/-- Embeds `mutex_unlock` (mutex.c): non-owner is rejected; otherwise
restore priority, clear the owner, wake one waiter. -/
def mutex_unlock (k : MKernel) (cur : Tid) : MKernel × mutex_result_t :=
  if k.mutex.owner ≠ some cur then (k, MUTEX_ERROR_NOT_OWNER)
  else
    let k1 := mutex_restore_priority k
    let k2 := { k1 with mutex := { k1.mutex with owner := none } }
    let k3 := if k2.mutex.waiting_tasks = [] then k2 else mutex_wake_one_waiter k2
    (k3, MUTEX_OK)

-- Spec scenario 4: owner O (tid 0) with base priority 3 holds the mutex;
-- waiter W (tid 1) with priority 1 blocks on it; O unlocks.

/-- Initial tasks for the inheritance scenario: tid 0 is the owner
(base = effective = 3, Running before it blocks the CPU), tid 1 the
high-priority waiter (base = effective = 1). -/
def c2_tasks : Tid → PTCB := fun t =>
  if t = 0 then { base_priority := 3, effective_priority := 3, state := TASK_RUNNING }
  else { base_priority := 1, effective_priority := 1, state := TASK_RUNNING }

/-- Fresh mutex already locked by tid 0 (the fast path of `mutex_lock`). -/
def c2_locked : MKernel :=
  (mutex_lock_step
    { tasks := c2_tasks, rq := fun _ => [],
      mutex := { owner := none, waiting_tasks := [], original_priority := MAX_PRIORITY } }
    0).1

/-- State after the waiter tid 1 blocks on the mutex (enqueue + priority
inheritance applied). -/
def c2_blocked : MKernel := (mutex_lock_step c2_locked 1).1

/-- State after the owner unlocks. -/
def c2_unlocked : MKernel := (mutex_unlock c2_blocked 0).1

/-- Embeds `mutex_delete` (mutex.c): if owned, restore priority; wake all
waiters with `WAKE_REASON_SIGNAL` (modelled as making them Ready); the
block is then returned to the pool (the mutex state is dropped by the
caller). -/
def mutex_delete (k : MKernel) : MKernel :=
  let k1 := if k.mutex.owner.isSome then mutex_restore_priority k else k
  let wake := fun (k' : MKernel) (t : Tid) =>
    let prio := (k'.tasks t).effective_priority
    { k' with
      tasks := fun x => if x = t then
        { k'.tasks x with state := TASK_READY } else k'.tasks x,
      rq := fun p => if p = prio then k'.rq p ++ [t] else k'.rq p }
  let k2 := k1.mutex.waiting_tasks.foldl wake k1
  { k2 with mutex := { k2.mutex with waiting_tasks := [] } }

-- ======================================================================
-- Ready queues and scheduler_get_next_task (scheduler.c, kernel.c)
-- ======================================================================

/-- The ready queues: band index (0 = highest priority) to the list of
tasks queued in that band, head first. -/
abbrev ReadyQueues := Nat → List Tid

/-- Embeds the band scan of `scheduler_get_next_task`: the first priority
in `0..MAX_PRIORITY` whose ready queue is non-empty. -/
def find_ready_band (rq : ReadyQueues) : Option Nat :=
  (List.range (MAX_PRIORITY + 1)).find? (fun p => !(rq p).isEmpty)

/-- Embeds `scheduler_get_next_task` (scheduler.c lines 63-79): scan the
bands from 0 upward; for the first non-empty band take the head and move
it to the tail (`list_move_to_tail`), returning the task together with
the updated queues.  When every band is empty the C function never
returns (`while (1) {}`); that case is modelled as `none`. -/
def scheduler_get_next_task (rq : ReadyQueues) :
    Option (Tid × ReadyQueues) :=
  match find_ready_band rq with
  | none => none
  | some p =>
    match rq p with
    | [] => none
    | first :: rest => some (first, fun q => if q = p then rest ++ [first] else rq q)

/-- Embeds `scheduler_add_task` at the ready-queue level: insert the task
at the tail of band `p` (the task's effective priority). -/
def scheduler_add_task_rq (rq : ReadyQueues) (p : Nat) (t : Tid) : ReadyQueues :=
  fun q => if q = p then rq q ++ [t] else rq q

/-- The identifier of the idle task created by `kernel_init`. -/
def idle_tid : Tid := 0

/-- Embeds the effect of `kernel_init` (kernel.c lines 49-75) on the
ready queues: `memory_pools_init` and `scheduler_init` leave every band
empty, then the idle task is created from the fresh pools (allocation
succeeds on fresh pools) with priority `MAX_PRIORITY` and added by
`scheduler_add_task`. -/
def kernel_init_rq : ReadyQueues :=
  scheduler_add_task_rq (fun _ => []) MAX_PRIORITY idle_tid

/-- One transition of the ready queues as the kernel runs after
`kernel_init`.  The constructors are the scheduler entry points that
mutate the ready queues, with side conditions read off the sources:
`remove` and `relink` never target the idle task because `task_delete`
refuses the idle task (kernel.c line 120), the idle task's body performs
no blocking call (kernel.c `idle_task_function`: it only checks the
queues and yields), and `scheduler_boost_priority` is invoked only on a
mutex owner while the idle task never locks a mutex. -/
inductive RQStep : ReadyQueues → ReadyQueues → Prop
  | add (rq : ReadyQueues) (p : Nat) (t : Tid) :
      RQStep rq (scheduler_add_task_rq rq p t)
  | next (rq : ReadyQueues) (x : Tid) (rq' : ReadyQueues) :
      scheduler_get_next_task rq = some (x, rq') → RQStep rq rq'
  | remove (rq : ReadyQueues) (t : Tid) (h : t ≠ idle_tid) :
      RQStep rq (fun p => (rq p).filter (· ≠ t))
  | relink (rq : ReadyQueues) (t : Tid) (h : t ≠ idle_tid) (q : Nat) :
      RQStep rq (scheduler_add_task_rq (fun p => (rq p).filter (· ≠ t)) q t)

/-- Ready-queue states reachable after `kernel_init`. -/
inductive RQReach : ReadyQueues → Prop
  | init : RQReach kernel_init_rq
  | step {rq rq'} : RQReach rq → RQStep rq rq' → RQReach rq'

-- ======================================================================
-- Counting semaphore (src/kernel/src/semaphore.c)
-- ======================================================================

/-- Semaphore results (semaphore.h), restricted to the ones `sem_post`
and `sem_wait` produce. -/
inductive sem_result_t
  | SEM_OK | SEM_ERROR_NULL | SEM_ERROR_OVERFLOW | SEM_ERROR_TIMEOUT
  deriving DecidableEq, Repr

open sem_result_t

/-- Semaphore control block (semaphore.h): `count`, `max_count` and the
FIFO wait-list. -/
structure SemCB where
  count : Nat
  max_count : Nat
  waiting_tasks : List Tid
  deriving DecidableEq, Repr

/-- Embeds `sem_create` (semaphore.c): rejects `max_count == 0` and
`initial_count > max_count`; otherwise the wait-list starts empty. -/
def sem_create (initial_count max_count : Nat) : Option SemCB :=
  if max_count = 0 ∨ initial_count > max_count then none
  else some { count := initial_count, max_count := max_count, waiting_tasks := [] }

/-- Embeds `sem_post` (semaphore.c lines 156-176): if a waiter exists,
release the wait-list head (`sem_wait_one_waiter`: the token is handed
over, `count` is NOT incremented); otherwise increment `count` when below
`max_count`, else report `SEM_ERROR_OVERFLOW`. -/
def sem_post (s : SemCB) : SemCB × sem_result_t :=
  match s.waiting_tasks with
  | _ :: rest => ({ s with waiting_tasks := rest }, SEM_OK)
  | [] =>
    if s.count < s.max_count then ({ s with count := s.count + 1 }, SEM_OK)
    else (s, SEM_ERROR_OVERFLOW)

/-- State transitions of one semaphore as tasks call into semaphore.c.
`wait_dec` is the fast path of `sem_wait` (`count > 0`); `wait_block`
is its blocking path, taken only when the fast path failed
(`count == 0`, with a non-zero timeout whose deadline has not passed):
the caller is appended to the FIFO wait-list.  `post` is `sem_post`.
`del` is the wake-all loop of `sem_delete`, after which the block is
returned to the pool. -/
inductive SemStep : SemCB → SemCB → Prop
  | wait_dec (s : SemCB) (h : s.count > 0) :
      SemStep s { s with count := s.count - 1 }
  | wait_block (s : SemCB) (t : Tid) (h : s.count = 0) :
      SemStep s { s with waiting_tasks := s.waiting_tasks ++ [t] }
  | post (s : SemCB) : SemStep s (sem_post s).1
  | del (s : SemCB) : SemStep s { s with waiting_tasks := [] }

/-- Semaphore states reachable from some `sem_create`. -/
inductive SemReach : SemCB → Prop
  | init {initial max_count : Nat} {s : SemCB} :
      sem_create initial max_count = some s → SemReach s
  | step {s s' : SemCB} : SemReach s → SemStep s s' → SemReach s'

/-- The invariant semaphore.c actually maintains: the count never
exceeds `max_count`, and while any task waits the count is zero. -/
def SemInv (s : SemCB) : Prop :=
  s.count ≤ s.max_count ∧ (s.waiting_tasks ≠ [] → s.count = 0)

-- ======================================================================
-- Fixed-size pool allocator (src/kernel/src/memory.c)
-- ======================================================================

/-- Mask of an all-ones `uint32_t`, used to model `~(1U << i)` as
`UINT32_MASK ^^^ (1 <<< i)`. -/
def UINT32_MASK : Nat := 2 ^ 32 - 1

/-- Pool bookkeeping record (memory.h `memory_pool_t`); `pool_start` is
the origin of our offset-based pointers and is left implicit. -/
structure memory_pool_t where
  object_size : Nat
  pool_size : Nat
  free_bitmap : Nat
  free_count : Nat
  deriving DecidableEq, Repr

/-- A pool together with its slot memory: `mem b` is the byte at offset
`b` from `pool_start`. -/
structure PoolState where
  pool : memory_pool_t
  mem : Nat → Nat

/-- Number of slots, as memory.c computes it: `pool_size / object_size`. -/
def pool_total (p : memory_pool_t) : Nat := p.pool_size / p.object_size

/-- Embeds `pool_init` (memory.c): `pool_size = object_size * max_objects`,
bitmap all ones (`(1 << max_objects) - 1`), `free_count = max_objects`.
The initial slot memory is arbitrary. -/
def pool_init (object_size max_objects : Nat) (mem0 : Nat → Nat) : PoolState :=
  { pool := { object_size := object_size,
              pool_size := object_size * max_objects,
              free_bitmap := 2 ^ max_objects - 1,
              free_count := max_objects },
    mem := mem0 }

/-- Embeds `find_free_bit` (memory.c): `-1` for a zero bitmap, else the
lowest index `i < 32` with bit `i` set. -/
def find_free_bit (bitmap : Nat) : Option Nat :=
  if bitmap = 0 then none
  else (List.range 32).find? (fun i => bitmap.testBit i)

/-- Embeds `pool_alloc` (memory.c lines 129-166): fail on an exhausted
pool, else clear the lowest free bit (`bitmap &= ~(1U << i)`), decrement
`free_count`, zero the slot's bytes, and return the slot's offset
(`index * object_size`, the pointer returned by `get_object_ptr`). -/
def pool_alloc (s : PoolState) : Option (Nat × PoolState) :=
  if s.pool.free_count = 0 then none
  else
    match find_free_bit s.pool.free_bitmap with
    | none => none
    | some i =>
      let bitmap2 := s.pool.free_bitmap &&& (UINT32_MASK ^^^ (1 <<< i))
      let offset := i * s.pool.object_size
      let pool2 :=
        { s.pool with free_bitmap := bitmap2, free_count := s.pool.free_count - 1 }
      some (offset,
        { pool := pool2,
          mem := fun b =>
            if offset ≤ b ∧ b < offset + s.pool.object_size then 0
            else s.mem b })

/-- Embeds `get_object_index` (memory.c lines 78-89): a pointer before
`pool_start` or at offset `>= pool_size` is rejected; otherwise the slot
index is `offset / object_size`.  Note: there is NO alignment check. -/
def get_object_index (pool : memory_pool_t) (ptr : Int) : Option Nat :=
  if ptr < 0 then none
  else if (pool.pool_size : Int) ≤ ptr then none
  else some (ptr.toNat / pool.object_size)

/-- Embeds `pool_free` (memory.c lines 168-194): `NULL` (`none`) and
out-of-range pointers are refused; a slot whose bit is already set (i.e.
already free) is refused leaving the pool unchanged; otherwise the bit is
set (`bitmap |= 1U << index`) and `free_count` incremented. -/
def pool_free (s : PoolState) (ptr : Option Int) : Bool × PoolState :=
  match ptr with
  | none => (false, s)
  | some p =>
    match get_object_index s.pool p with
    | none => (false, s)
    | some index =>
      if s.pool.free_bitmap.testBit index then (false, s)
      else
        let pool2 :=
          { s.pool with free_bitmap := s.pool.free_bitmap ||| (1 <<< index),
                        free_count := s.pool.free_count + 1 }
        (true, { s with pool := pool2 })

/-- Number of set bits among the 32 bitmap positions. -/
def count_free_bits (bitmap : Nat) : Nat :=
  ((Finset.range 32).filter (fun i => bitmap.testBit i)).card

/-- The pool invariant maintained by memory.c: positive slot size, at
most 32 slots, consistent `pool_size`, bitmap confined to the slot
indices, and `free_count` equal to the number of set bits. -/
def PoolInv (s : PoolState) : Prop :=
  0 < s.pool.object_size ∧
  pool_total s.pool ≤ 32 ∧
  s.pool.pool_size = s.pool.object_size * pool_total s.pool ∧
  s.pool.free_bitmap < 2 ^ pool_total s.pool ∧
  s.pool.free_count = count_free_bits s.pool.free_bitmap

/-- Operations applied to one pool: `pool_alloc` or `pool_free ptr`. -/
inductive PoolOp
  | alloc
  | free_ptr (ptr : Option Int)

/-- Runs a sequence of pool operations, discarding each call's return
value (a failed call leaves the pool unchanged, as in memory.c). -/
def pool_run (s : PoolState) : List PoolOp → PoolState
  | [] => s
  | PoolOp.alloc :: rest =>
    match pool_alloc s with
    | none => pool_run s rest
    | some (_, s2) => pool_run s2 rest
  | PoolOp.free_ptr ptr :: rest => pool_run (pool_free s ptr).2 rest

/-- The consistency properties claimed for one pool state. -/
def pool_consistent (s : PoolState) : Prop :=
  (pool_total s.pool - s.pool.free_count) + s.pool.free_count =
    pool_total s.pool ∧
  (∀ off s2, pool_alloc s = some (off, s2) →
    off % s.pool.object_size = 0 ∧
    off + s.pool.object_size ≤ s.pool.pool_size ∧
    ∀ b, off ≤ b → b < off + s.pool.object_size → s2.mem b = 0) ∧
  (∀ ptr index, get_object_index s.pool ptr = some index →
    s.pool.free_bitmap.testBit index = true →
    pool_free s (some ptr) = (false, s))

/-- Pool state with slot 0 allocated, from a fresh 512-byte 4-slot pool. -/
def c7_pool : PoolState :=
  match pool_alloc (pool_init 512 4 (fun _ => 0)) with
  | some (_, s2) => s2
  | none => pool_init 512 4 (fun _ => 0)

-- ======================================================================
-- Ring buffer (circular_buffer.h, src/unnamed/part_008)
-- ======================================================================

/-- The ring buffer (`circular_buffer_t`): the byte region is modelled at
element granularity, `buffer i` being the element stored in slot `i`
(`cb_put` copies exactly `element_size` bytes to offset
`tail * element_size`, i.e. a whole slot). -/
structure circular_buffer_t (α : Type) where
  capacity : Nat
  buffer : Nat → α
  element_size : Nat
  size : Nat
  head : Nat
  tail : Nat
  mask : Nat

/-- Embeds `cb_is_empty`: `size == 0` (a nil buffer pointer cannot arise
in the embedding). -/
def cb_is_empty {α : Type} (cb : circular_buffer_t α) : Bool := cb.size == 0

/-- Embeds `cb_is_full`: `size == capacity`. -/
def cb_is_full {α : Type} (cb : circular_buffer_t α) : Bool :=
  cb.size == cb.capacity

/-- Embeds the rounding loop of `cb_init`:
`new_capacity = 1; while (new_capacity < capacity) new_capacity <<= 1;`
with `new_capacity` kept as `2^k`. -/
def grow_pow2 (capacity k : Nat) : Nat :=
  if 2 ^ k < capacity then grow_pow2 capacity (k + 1) else 2 ^ k
termination_by capacity - 2 ^ k
decreasing_by
  have h1 : 2 ^ k < 2 ^ (k + 1) := Nat.pow_lt_pow_succ (by norm_num)
  omega

/-- Embeds the capacity rounding of `cb_init`: a power of two
(`(capacity & (capacity - 1)) == 0`) is kept, anything else is rounded
up by the doubling loop. -/
def cb_round_capacity (capacity : Nat) : Nat :=
  if capacity &&& (capacity - 1) = 0 then capacity else grow_pow2 capacity 0

/-- Embeds `cb_init` (part_008 lines 41-74): reject zero capacity or
element size, round the capacity up to a power of two, store
`mask = new_capacity - 1` and reset the indices. -/
def cb_init {α : Type} (buffer0 : Nat → α) (capacity element_size : Nat) :
    Option (circular_buffer_t α) :=
  if capacity = 0 ∨ element_size = 0 then none
  else
    let new_capacity := cb_round_capacity capacity
    some { capacity := new_capacity, buffer := buffer0,
           element_size := element_size, size := 0, head := 0, tail := 0,
           mask := new_capacity - 1 }

/-- Embeds `cb_put` (part_008 lines 104-117): fail with the buffer-full
error (`none`) when full, else store the element at `tail` and advance
`tail = (tail + 1) & mask`. -/
def cb_put {α : Type} (cb : circular_buffer_t α) (v : α) :
    Option (circular_buffer_t α) :=
  if cb_is_full cb then none
  else some { cb with
    buffer := fun i => if i = cb.tail then v else cb.buffer i,
    tail := (cb.tail + 1) &&& cb.mask,
    size := cb.size + 1 }

/-- Embeds `cb_get` (part_008 lines 120-133): fail with the buffer-empty
error (`none`) when empty, else copy out the element at `head` and
advance `head = (head + 1) & mask`. -/
def cb_get {α : Type} (cb : circular_buffer_t α) :
    Option (α × circular_buffer_t α) :=
  if cb_is_empty cb then none
  else some (cb.buffer cb.head,
    { cb with head := (cb.head + 1) &&& cb.mask, size := cb.size - 1 })

/-- The ring-buffer invariant established by `cb_init` and preserved by
`cb_put` / `cb_get`. -/
def CBInv {α : Type} (cb : circular_buffer_t α) : Prop :=
  (∃ j, cb.capacity = 2 ^ j) ∧
  cb.mask = cb.capacity - 1 ∧
  cb.head < cb.capacity ∧
  cb.tail = (cb.head + cb.size) % cb.capacity ∧
  cb.size ≤ cb.capacity

/-- The queue of elements currently held, oldest first. -/
def cb_contents {α : Type} (cb : circular_buffer_t α) : List α :=
  (List.range cb.size).map (fun i => cb.buffer ((cb.head + i) % cb.capacity))

/-- One ring-buffer call in an interleaving. -/
inductive CBOp (α : Type)
  | put (v : α)
  | get

/-- Runs an interleaving of `cb_put` / `cb_get` calls, discarding the
failing ones, and collects the final buffer, the values accepted by the
puts and the values returned by the gets (each in call order). -/
def cb_run {α : Type} (cb : circular_buffer_t α) :
    List (CBOp α) → circular_buffer_t α × List α × List α
  | [] => (cb, [], [])
  | CBOp.put v :: rest =>
    match cb_put cb v with
    | none => cb_run cb rest
    | some cb2 =>
      let r := cb_run cb2 rest
      (r.1, v :: r.2.1, r.2.2)
  | CBOp.get :: rest =>
    match cb_get cb with
    | none => cb_run cb rest
    | some (v, cb2) =>
      let r := cb_run cb2 rest
      (r.1, r.2.1, v :: r.2.2)

/-- Concrete buffer of spec scenario 1: `cb_init` with capacity 4 and
element size 4 (capacity 4 is already a power of two). -/
def c8_cb0 : circular_buffer_t Nat :=
  { capacity := 4, buffer := fun _ => 0, element_size := 4, size := 0,
    head := 0, tail := 0, mask := 3 }

/-- A small interleaving exercising put, get and put-after-get. -/
def c8_ops : List (CBOp Nat) :=
  [CBOp.put 10, CBOp.put 20, CBOp.get, CBOp.put 30]

-- ======================================================================
-- Message queue (queue.c / src/unnamed/part_001)
-- ======================================================================

/-- Queue control block (queue.h): the ring buffer plus the two FIFO
wait-lists. -/
structure queue_control_block where
  buffer : circular_buffer_t Nat
  waiting_senders : List Tid
  waiting_receivers : List Tid

/-- Task slice for the queue scenarios. -/
structure QTCB where
  state : task_state_t
  wake_reason : wake_reason_t
  waiting_on : Bool
  deriving DecidableEq, Repr

/-- Kernel state around one queue: the queue (none once freed), the
tasks, the ready list and the delayed list (tasks with armed timeouts). -/
structure QKernel where
  queue : Option queue_control_block
  tasks : Tid → QTCB
  ready : List Tid
  delayed : List Tid

/-- Embeds the blocking path of `queue_receive` (part_001 lines 145-194)
taken by task `cur` when the buffer is empty and the non-zero timeout's
deadline has not passed: set `waiting_on`, push onto `waiting_receivers`,
arm the timeout (`scheduler_set_timeout`, modelled by the delayed list)
and block. -/
def queue_receive_block (k : QKernel) (cur : Tid) : QKernel :=
  match k.queue with
  | none => k
  | some q =>
    if cb_is_empty q.buffer then
      { queue := some { q with waiting_receivers := q.waiting_receivers ++ [cur] },
        tasks := fun t => if t = cur then
          { state := TASK_BLOCKED, wake_reason := (k.tasks cur).wake_reason,
            waiting_on := true } else k.tasks t,
        ready := k.ready,
        delayed := k.delayed ++ [cur] }
    else k

/-- Embeds `queue_delete` (part_001 lines 75-80 and queue.c lines 62-67):
`cb_free(&queue->buffer); free(queue);` — the buffer and the control
block are freed, and NOTHING else happens: no waiter is woken, no
wake_reason is set, no timeout is cancelled, no task is made ready. -/
def queue_delete (k : QKernel) : QKernel :=
  match k.queue with
  | none => k
  | some _ => { k with queue := none }

/-- Initial state for the deletion scenario: an empty 4-slot queue and
task 1 about to call `queue_receive` with a 100-tick timeout. -/
def c4_start : QKernel :=
  { queue := some { buffer := c8_cb0, waiting_senders := [],
                    waiting_receivers := [] },
    tasks := fun _ =>
      { state := TASK_RUNNING, wake_reason := WAKE_REASON_NONE,
        waiting_on := false },
    ready := [], delayed := [] }

/-- State with task 1 blocked in `queue_receive`. -/
def c4_blocked : QKernel := queue_receive_block c4_start 1

/-- State after `queue_delete`. -/
def c4_deleted : QKernel := queue_delete c4_blocked

-- ======================================================================
-- Task creation (kernel.c task_create, task.c task_create_internal)
-- ======================================================================

/-- `DEFAULT_STACK_SIZE` (config.h). -/
def DEFAULT_STACK_SIZE : Nat := 1024

/-- The four pools `task_create_internal` draws from (memory.c):
TCB pool (`MAX_TASKS = 8` slots of `sizeof(task_control_block)` bytes)
and the three stack pools (512 x 4, 1024 x 6, 2048 x 2). -/
structure TaskPools where
  tcb : PoolState
  stack_small : PoolState
  stack_default : PoolState
  stack_large : PoolState

/-- The pools as `memory_pools_init` leaves them; `tcb_size` stands for
`sizeof(task_control_block)`. -/
def task_pools_init (tcb_size : Nat) (mem0 : Nat → Nat) : TaskPools :=
  { tcb := pool_init tcb_size 8 mem0,
    stack_small := pool_init 512 4 mem0,
    stack_default := pool_init 1024 6 mem0,
    stack_large := pool_init 2048 2 mem0 }

/-- Embeds `task_pool_alloc_stack` (memory.c lines 201-211): pick the
smallest stack class that fits, fail above 2048 bytes. -/
def task_pool_alloc_stack (p : TaskPools) (requested_size : Nat) :
    Option (Nat × TaskPools) :=
  if requested_size ≤ 512 then
    match pool_alloc p.stack_small with
    | none => none
    | some (off, s) => some (off, { p with stack_small := s })
  else if requested_size ≤ 1024 then
    match pool_alloc p.stack_default with
    | none => none
    | some (off, s) => some (off, { p with stack_default := s })
  else if requested_size ≤ 2048 then
    match pool_alloc p.stack_large with
    | none => none
    | some (off, s) => some (off, { p with stack_large := s })
  else none

/-- The slice of the created TCB that the claim observes. -/
structure TCB9 where
  stack_size : Nat
  name : String
  priority : Nat
  state : task_state_t
  deriving DecidableEq, Repr

/-- Embeds `task_create_internal` (task.c lines 12-60): validation is
`!function || !name || stack_size == 0 || priority > MAX_PRIORITY`
(note: only a NIL name is rejected, the empty string passes); allocate
the TCB, then a stack from the smallest fitting class, rolling the TCB
back on stack failure; `actual_stack_size` is the chosen class size.
The function pointer is modelled by `has_function` (non-nil or nil) and
the name by an `Option String` (none = NULL). -/
def task_create_internal (p : TaskPools) (has_function : Bool)
    (name : Option String) (stack_size priority : Nat) :
    Option TCB9 × TaskPools :=
  if ¬has_function ∨ name = none ∨ stack_size = 0 ∨ priority > MAX_PRIORITY then
    (none, p)
  else
    match pool_alloc p.tcb with
    | none => (none, p)
    | some (tcb_off, tcb_pool2) =>
      let p1 := { p with tcb := tcb_pool2 }
      match task_pool_alloc_stack p1 stack_size with
      | none =>
        (none, { p1 with tcb := (pool_free p1.tcb (some tcb_off)).2 })
      | some (_, p2) =>
        let actual_stack_size :=
          if stack_size ≤ 512 then 512
          else if stack_size ≤ 1024 then 1024
          else 2048
        (some { stack_size := actual_stack_size, name := name.getD "",
                priority := priority, state := TASK_READY }, p2)

/-- Embeds the public `task_create` (kernel.c lines 98-117): reject when
the kernel is not initialized; a `stack_size` of 0 selects
`DEFAULT_STACK_SIZE`; then delegate to `task_create_internal`. -/
def task_create (p : TaskPools) (kernel_ready has_function : Bool)
    (name : Option String) (stack_size priority : Nat) :
    Option TCB9 × TaskPools :=
  if ¬kernel_ready then (none, p)
  else
    let ss := if stack_size = 0 then DEFAULT_STACK_SIZE else stack_size
    task_create_internal p has_function name ss priority

-- ======================================================================
-- Queue creation and buffer-slot safety (part_001 queue_create,
-- memory.c queue_pool_alloc_buffer, part_008 cb_put)
-- ======================================================================

/-- Embeds the size-class choice of `queue_pool_alloc_buffer`
(memory.c lines 230-241): the smallest of the 64 / 256 / 1024-byte
buffer classes that fits the requested size; larger requests fail. -/
def queue_buffer_slot_size (requested_size : Nat) : Option Nat :=
  if requested_size ≤ 64 then some 64
  else if requested_size ≤ 256 then some 256
  else if requested_size ≤ 1024 then some 1024
  else none

/-- Embeds `queue_create` (part_001 lines 42-73) on fresh pools: reject
zero length or item size; choose the buffer slot for
`queue_length * item_size` bytes; round the CAPACITY up to the next
power of two (`capacity = 1; while (capacity < queue_length)
capacity <<= 1;`) and fill in the ring buffer fields with
`mask = capacity - 1`.  Returns the ring buffer and the byte size of the
pool slot backing it. -/
def queue_create (queue_length item_size : Nat) :
    Option (circular_buffer_t Nat × Nat) :=
  if queue_length = 0 ∨ item_size = 0 then none
  else
    match queue_buffer_slot_size (queue_length * item_size) with
    | none => none
    | some slot =>
      let capacity := grow_pow2 queue_length 0
      some ({ capacity := capacity, buffer := fun _ => 0,
              element_size := item_size, size := 0, head := 0, tail := 0,
              mask := capacity - 1 }, slot)

/-- The byte interval written by `cb_put` (part_008 lines 108-111):
`dest = buffer + tail * element_size`, `memcpy(dest, data,
element_size)`, i.e. bytes `[tail * element_size,
tail * element_size + element_size)` of the slot. -/
def cb_put_write_span (cb : circular_buffer_t Nat) : Nat × Nat :=
  (cb.tail * cb.element_size, cb.tail * cb.element_size + cb.element_size)

/-- The queue of spec-breaking shape: `queue_create(5, 50)` — the slot is
chosen for 250 bytes (the 256-byte class) but the capacity is rounded up
to 8 slots of 50 bytes = 400 bytes. -/
def c10_cb : circular_buffer_t Nat :=
  { capacity := 8, buffer := fun _ => 0, element_size := 50, size := 0,
    head := 0, tail := 0, mask := 7 }

/-- State after five successful `cb_put`s on that queue. -/
def c10_after5 : circular_buffer_t Nat :=
  (cb_run c10_cb ((List.range 5).map CBOp.put)).1

-- ======================================================================
-- Theorems
-- ======================================================================

/-- Claim C1: refuted by evaluation.  The C tick handler reads
`now = tick_now++`, i.e. it captures the PRE-increment value of the
counter, so a task armed for `wake_tick = arm-time + n` is expired by the
(n+1)-th `scheduler_tick` call, one tick later than the claim requires.
Driving the spec's own scenario (arm a 5-tick timeout at `tick_now = 100`,
deliver 5 tick interrupts) leaves the task Blocked on `delayed_current`
with `tick_now` already equal to 105; only the 6th tick expires it. -/
theorem scheduler_tick_expires_one_tick_late :
    (c1_after 5).tick_now = 105 ∧
    (c1_after 5).ready = [] ∧
    (c1_after 5).delayed_cur =
      [{ id := 1, wake_tick := 105, waiting_on := true,
         wake_reason := WAKE_REASON_NONE, state := TASK_BLOCKED }] ∧
    (c1_after 6).ready =
      [{ id := 1, wake_tick := 105, waiting_on := false,
         wake_reason := WAKE_REASON_TIMEOUT, state := TASK_READY }] := by
  refine ⟨?_, ?_, ?_, ?_⟩ <;> decide

/-- Claim C2: the inheritance half holds (after the enqueue the owner's
effective priority is 1 <= H = 1, with base still 3), but the restoration
half fails: `mutex_restore_priority` delegates to
`scheduler_boost_priority`, whose `new_priority >= effective_priority`
guard makes raising the number back a no-op, so after `mutex_unlock` the
owner keeps effective priority 1 instead of its base priority 3.  (The
repo's own unit test expects 3 but passes only because it mocks
`scheduler_boost_priority` as an unconditional assignment.) -/
theorem mutex_unlock_does_not_restore_priority :
    (c2_blocked.tasks 0).effective_priority = 1 ∧
    (c2_blocked.tasks 0).base_priority = 3 ∧
    c2_blocked.mutex.original_priority = 3 ∧
    (mutex_unlock c2_blocked 0).2 = MUTEX_OK ∧
    (c2_unlocked.tasks 0).effective_priority = 1 ∧
    (c2_unlocked.tasks 0).base_priority = 3 ∧
    ((mutex_delete c2_blocked).tasks 0).effective_priority = 1 := by
  refine ⟨?_, ?_, ?_, ?_, ?_, ?_, ?_⟩ <;> rfl

/-- Characterization of a successful `scheduler_get_next_task`: the band
found is the first non-empty one, the returned task is its head, and the
head moves to the tail. -/
theorem scheduler_get_next_task_some {rq : ReadyQueues} {x : Tid}
    {rq' : ReadyQueues} (h : scheduler_get_next_task rq = some (x, rq')) :
    ∃ p rest, find_ready_band rq = some p ∧ rq p = x :: rest ∧
      rq' = fun q => if q = p then rest ++ [x] else rq q := by
  unfold scheduler_get_next_task at h
  split at h
  · exact Option.noConfusion h
  · rename_i p hfind
    split at h
    · exact Option.noConfusion h
    · rename_i f rest hband
      have h2 := Option.some.inj h
      have hx : f = x := congrArg Prod.fst h2
      have hr : (fun q => if q = p then rest ++ [f] else rq q) = rq' :=
        congrArg Prod.snd h2
      subst hx
      exact ⟨p, rest, hfind, hband, hr.symm⟩

/-- The idle task stays on the lowest-priority ready queue across every
step. -/
theorem idle_mem_of_step {rq rq' : ReadyQueues}
    (hmem : idle_tid ∈ rq MAX_PRIORITY) (hstep : RQStep rq rq') :
    idle_tid ∈ rq' MAX_PRIORITY := by
  cases hstep with
  | add p t =>
    unfold scheduler_add_task_rq
    by_cases hp : MAX_PRIORITY = p
    · rw [if_pos hp]; exact List.mem_append_left _ hmem
    · rw [if_neg hp]; exact hmem
  | next x rqn hnext =>
    obtain ⟨p, rest, _, hband, hrq⟩ := scheduler_get_next_task_some hnext
    subst hrq
    show idle_tid ∈ if MAX_PRIORITY = p then rest ++ [x] else rq MAX_PRIORITY
    by_cases hp : MAX_PRIORITY = p
    · rw [if_pos hp]
      rw [hp, hband] at hmem
      rcases List.mem_cons.mp hmem with h1 | h2
      · exact List.mem_append_right _ (by rw [h1]; exact List.mem_singleton_self _)
      · exact List.mem_append_left _ h2
    · rw [if_neg hp]; exact hmem
  | remove t ht =>
    exact List.mem_filter.mpr ⟨hmem, decide_eq_true (Ne.symm ht)⟩
  | relink t ht q =>
    unfold scheduler_add_task_rq
    by_cases hq : MAX_PRIORITY = q
    · rw [if_pos hq]
      exact List.mem_append_left _
        (List.mem_filter.mpr ⟨hmem, decide_eq_true (Ne.symm ht)⟩)
    · rw [if_neg hq]
      exact List.mem_filter.mpr ⟨hmem, decide_eq_true (Ne.symm ht)⟩

/-- In every reachable state the idle task is on the lowest-priority
ready queue. -/
theorem idle_mem_of_reach {rq : ReadyQueues} (h : RQReach rq) :
    idle_tid ∈ rq MAX_PRIORITY := by
  induction h with
  | init => simp [kernel_init_rq, scheduler_add_task_rq]
  | step _ hstep ih => exact idle_mem_of_step ih hstep

/-- A non-empty band makes `scheduler_get_next_task` succeed. -/
theorem scheduler_get_next_task_isSome {rq : ReadyQueues}
    (p : Nat) (hp : p ≤ MAX_PRIORITY) (hne : rq p ≠ []) :
    ∃ x rq', scheduler_get_next_task rq = some (x, rq') := by
  have hfind : ∃ q, find_ready_band rq = some q := by
    have hmem : p ∈ List.range (MAX_PRIORITY + 1) :=
      List.mem_range.mpr (Nat.lt_succ_of_le hp)
    have hs : ((List.range (MAX_PRIORITY + 1)).find?
        (fun b => !(rq b).isEmpty)).isSome := by
      rw [List.find?_isSome]
      exact ⟨p, hmem, by simpa [List.isEmpty_iff] using hne⟩
    exact Option.isSome_iff_exists.mp hs
  obtain ⟨q, hq⟩ := hfind
  have hqne : rq q ≠ [] := by
    have := List.find?_some hq
    simpa [List.isEmpty_iff] using this
  unfold scheduler_get_next_task
  simp only [hq]
  cases hband : rq q with
  | nil => exact absurd hband hqne
  | cons f rest => simp only [hband]; exact ⟨f, _, rfl⟩

/-- Claim C3 counterexample: on the all-empty ready queues
`scheduler_get_next_task` does not return at all (the C code spins in
`while (1) {}`, modelled as `none`); in particular it does not return the
idle task as the claim states. -/
theorem scheduler_get_next_task_all_empty :
    scheduler_get_next_task (fun _ => []) = none := by rfl

/-- Claim C3 (amended): `kernel_init` leaves the idle task as the sole
entry of the lowest-priority ready queue (after initializing the pools
and the scheduler), and in every reachable ready-queue state
`scheduler_get_next_task` succeeds, returning the head of the first
non-empty band and moving it to that band's tail; the all-empty case
(where the C code would hang instead of returning the idle task) is
unreachable. -/
theorem kernel_init_get_next_task_total :
    kernel_init_rq = (fun p => if p = MAX_PRIORITY then [idle_tid] else []) ∧
    (∀ rq, RQReach rq → ∃ x rq',
      scheduler_get_next_task rq = some (x, rq') ∧
      ∃ p rest, find_ready_band rq = some p ∧ rq p = x :: rest ∧
        rq' = fun q => if q = p then rest ++ [x] else rq q) := by
  constructor
  · funext p
    by_cases h : p = MAX_PRIORITY <;>
      simp [kernel_init_rq, scheduler_add_task_rq, h]
  · intro rq hreach
    have hmem := idle_mem_of_reach hreach
    have hne : rq MAX_PRIORITY ≠ [] := by
      intro hcon; rw [hcon] at hmem; exact List.not_mem_nil _ hmem
    obtain ⟨x, rq', hx⟩ :=
      scheduler_get_next_task_isSome MAX_PRIORITY (le_refl _) hne
    exact ⟨x, rq', hx, scheduler_get_next_task_some hx⟩

/-- Witness for C3: instantiated at the state left by `kernel_init`
itself, where the returned task is the idle task. -/
theorem kernel_init_get_next_task_total_witness :
    RQReach kernel_init_rq ∧
    (∃ x rq', scheduler_get_next_task kernel_init_rq = some (x, rq') ∧
      ∃ p rest, find_ready_band kernel_init_rq = some p ∧
        kernel_init_rq p = x :: rest ∧
        rq' = fun q => if q = p then rest ++ [x] else kernel_init_rq q) :=
  ⟨RQReach.init, kernel_init_get_next_task_total.2 kernel_init_rq RQReach.init⟩

/-- Unfolding `sem_post` when a waiter exists. -/
theorem sem_post_cons (c m : Nat) (t : Tid) (rest : List Tid) :
    sem_post { count := c, max_count := m, waiting_tasks := t :: rest } =
      ({ count := c, max_count := m, waiting_tasks := rest }, SEM_OK) := rfl

/-- Unfolding `sem_post` with no waiter and room in the count. -/
theorem sem_post_nil_lt {c m : Nat} (h : c < m) :
    sem_post { count := c, max_count := m, waiting_tasks := [] } =
      ({ count := c + 1, max_count := m, waiting_tasks := [] }, SEM_OK) := by
  simp only [sem_post]
  rw [if_pos h]

/-- Unfolding `sem_post` at the overflow case. -/
theorem sem_post_nil_full {c m : Nat} (h : ¬c < m) :
    sem_post { count := c, max_count := m, waiting_tasks := [] } =
      ({ count := c, max_count := m, waiting_tasks := [] }, SEM_ERROR_OVERFLOW) := by
  simp only [sem_post]
  rw [if_neg h]

/-- `sem_post` preserves the semaphore invariant. -/
theorem sem_post_inv {s : SemCB} (h : SemInv s) : SemInv (sem_post s).1 := by
  obtain ⟨c, m, w⟩ := s
  obtain ⟨hle, hwz⟩ := h
  cases w with
  | cons t rest =>
    have hc0 : c = 0 := hwz (List.cons_ne_nil _ _)
    subst hc0
    rw [sem_post_cons]
    exact ⟨hle, fun _ => rfl⟩
  | nil =>
    by_cases hc : c < m
    · rw [sem_post_nil_lt hc]
      exact ⟨hc, fun hne => absurd rfl hne⟩
    · rw [sem_post_nil_full hc]
      exact ⟨hle, hwz⟩

theorem sem_inv_of_reach {s : SemCB} (h : SemReach s) : SemInv s := by
  induction h with
  | init hc =>
    rename_i initial max_count s0
    unfold sem_create at hc
    split at hc
    · exact Option.noConfusion hc
    · rename_i hguard
      push_neg at hguard
      cases Option.some.inj hc
      exact ⟨hguard.2, fun hne => absurd rfl hne⟩
  | step _ hstep ih =>
    obtain ⟨hle, hwz⟩ := ih
    cases hstep with
    | wait_dec hpos =>
      exact ⟨Nat.le_trans (Nat.sub_le _ _) hle, fun hne => by
        have := hwz hne; omega⟩
    | wait_block t hz => exact ⟨hle, fun _ => hz⟩
    | post => exact sem_post_inv ⟨hle, hwz⟩
    | del => exact ⟨hle, fun hne => absurd rfl hne⟩

/-- Claim C5 counterexample: with `sem_create(0, 1)` and two tasks
blocking in `sem_wait` (each with a non-zero timeout), the state
`count = 0, waiters = [1, 2]` is reached, where
`count + |waiters| = 2 > 1 = max_count`: the claimed bound is violated
in a state the code itself reaches. -/
theorem sem_count_plus_waiters_exceeds_max :
    SemReach { count := 0, max_count := 1, waiting_tasks := [1, 2] } ∧
    ({ count := 0, max_count := 1, waiting_tasks := [1, 2] } : SemCB).count +
      ({ count := 0, max_count := 1, waiting_tasks := [1, 2] } : SemCB).waiting_tasks.length >
      ({ count := 0, max_count := 1, waiting_tasks := [1, 2] } : SemCB).max_count := by
  constructor
  · exact SemReach.step
      (SemReach.step (@SemReach.init 0 1 _ rfl)
        (SemStep.wait_block _ 1 rfl))
      (SemStep.wait_block _ 2 rfl)
  · decide

/-- Claim C5 (amended): the invariant the code maintains is
`count <= max_count` together with `waiters nonempty -> count = 0` (the
claimed bound `count + |waiters| <= max_count` fails as soon as more than
`max_count` tasks wait); every `sem_post` returning `SEM_OK` either
increments `count` by one with the wait-list untouched, or removes
exactly one waiter with `count` untouched — never both; and `sem_post`
at `count = max_count` with no waiters returns `SEM_ERROR_OVERFLOW`
leaving the state unchanged. -/
theorem sem_invariant_and_post_exclusive (s : SemCB) (h : SemReach s) :
    (s.count ≤ s.max_count ∧ (s.waiting_tasks ≠ [] → s.count = 0)) ∧
    ((sem_post s).2 = SEM_OK →
      ((sem_post s).1.count = s.count + 1 ∧
        (sem_post s).1.waiting_tasks = s.waiting_tasks) ∨
      (s.waiting_tasks.length = (sem_post s).1.waiting_tasks.length + 1 ∧
        (sem_post s).1.count = s.count)) ∧
    (s.count = s.max_count → s.waiting_tasks = [] →
      (sem_post s).2 = SEM_ERROR_OVERFLOW ∧ (sem_post s).1 = s) := by
  refine ⟨sem_inv_of_reach h, ?_, ?_⟩
  · intro hok
    obtain ⟨c, m, w⟩ := s
    cases w with
    | cons t rest =>
      right
      rw [sem_post_cons]
      exact ⟨by simp, rfl⟩
    | nil =>
      left
      by_cases hc : c < m
      · rw [sem_post_nil_lt hc]
        exact ⟨rfl, rfl⟩
      · rw [sem_post_nil_full hc] at hok
        exact absurd hok (by simp)
  · intro hc hw
    obtain ⟨c, m, w⟩ := s
    simp only at hc hw
    subst hw
    subst hc
    rw [sem_post_nil_full (by omega)]
    exact ⟨rfl, rfl⟩

/-- Witness for C5's amended theorem at the concrete reachable semaphore
produced by `sem_create(1, 1)`. -/
theorem sem_invariant_and_post_exclusive_witness :
    ((({ count := 1, max_count := 1, waiting_tasks := [] } : SemCB).count ≤
        ({ count := 1, max_count := 1, waiting_tasks := [] } : SemCB).max_count ∧
      (({ count := 1, max_count := 1, waiting_tasks := [] } : SemCB).waiting_tasks ≠ [] →
        ({ count := 1, max_count := 1, waiting_tasks := [] } : SemCB).count = 0)) ∧
    ((sem_post { count := 1, max_count := 1, waiting_tasks := [] }).2 = SEM_OK →
      ((sem_post { count := 1, max_count := 1, waiting_tasks := [] }).1.count =
          ({ count := 1, max_count := 1, waiting_tasks := [] } : SemCB).count + 1 ∧
        (sem_post { count := 1, max_count := 1, waiting_tasks := [] }).1.waiting_tasks =
          ({ count := 1, max_count := 1, waiting_tasks := [] } : SemCB).waiting_tasks) ∨
      (({ count := 1, max_count := 1, waiting_tasks := [] } : SemCB).waiting_tasks.length =
          (sem_post { count := 1, max_count := 1, waiting_tasks := [] }).1.waiting_tasks.length + 1 ∧
        (sem_post { count := 1, max_count := 1, waiting_tasks := [] }).1.count =
          ({ count := 1, max_count := 1, waiting_tasks := [] } : SemCB).count)) ∧
    (({ count := 1, max_count := 1, waiting_tasks := [] } : SemCB).count =
        ({ count := 1, max_count := 1, waiting_tasks := [] } : SemCB).max_count →
      ({ count := 1, max_count := 1, waiting_tasks := [] } : SemCB).waiting_tasks = [] →
      (sem_post { count := 1, max_count := 1, waiting_tasks := [] }).2 = SEM_ERROR_OVERFLOW ∧
      (sem_post { count := 1, max_count := 1, waiting_tasks := [] }).1 =
        { count := 1, max_count := 1, waiting_tasks := [] })) :=
  sem_invariant_and_post_exclusive
    { count := 1, max_count := 1, waiting_tasks := [] }
    (@SemReach.init 1 1 _ rfl)

/-- A bitmap below `2^total` only has bits below `total` set, so its bit
count is at most `total`. -/
theorem count_free_bits_le {bitmap total : Nat} (h : bitmap < 2 ^ total) :
    count_free_bits bitmap ≤ total := by
  have hsub : (Finset.range 32).filter (fun i => bitmap.testBit i) ⊆
      Finset.range total := by
    intro j hj
    have hbit : bitmap.testBit j = true := (Finset.mem_filter.mp hj).2
    have hge : 2 ^ j ≤ bitmap := Nat.testBit_implies_ge hbit
    have : (2 : Nat) ^ j < 2 ^ total := Nat.lt_of_le_of_lt hge h
    exact Finset.mem_range.mpr ((Nat.pow_lt_pow_iff_right (by norm_num)).mp this)
  calc count_free_bits bitmap ≤ (Finset.range total).card :=
        Finset.card_le_card hsub
    _ = total := Finset.card_range total

/-- Bit count of the all-ones bitmap of `total <= 32` slots. -/
theorem count_free_bits_all_ones {total : Nat} (h : total ≤ 32) :
    count_free_bits (2 ^ total - 1) = total := by
  unfold count_free_bits
  have hfe : (Finset.range 32).filter (fun i => (2 ^ total - 1).testBit i) =
      Finset.range total := by
    apply Finset.ext
    intro j
    simp only [Finset.mem_filter, Finset.mem_range, Nat.testBit_two_pow_sub_one]
    constructor
    · intro hj; exact of_decide_eq_true hj.2
    · intro hj; exact ⟨Nat.lt_of_lt_of_le hj h, decide_eq_true hj⟩
  rw [hfe, Finset.card_range]

/-- Bit `j < 32` of the cleared bitmap `bitmap & ~(1 << i)`. -/
theorem testBit_clear_lt {bitmap i : Nat} (j : Nat) (hj : j < 32) :
    (bitmap &&& (UINT32_MASK ^^^ (1 <<< i))).testBit j =
      (bitmap.testBit j && !(decide (i = j))) := by
  rw [Nat.one_shiftLeft, Nat.testBit_land, Nat.testBit_xor]
  unfold UINT32_MASK
  rw [Nat.testBit_two_pow_sub_one, Nat.testBit_two_pow]
  simp [hj]

/-- Clearing a set bit decrements the bit count by one. -/
theorem count_free_bits_clear {bitmap i : Nat} (hi : i < 32)
    (hset : bitmap.testBit i = true) :
    count_free_bits (bitmap &&& (UINT32_MASK ^^^ (1 <<< i))) + 1 =
      count_free_bits bitmap := by
  unfold count_free_bits
  have hsplit : (Finset.range 32).filter (fun j => bitmap.testBit j) =
      insert i ((Finset.range 32).filter
        (fun j => (bitmap &&& (UINT32_MASK ^^^ (1 <<< i))).testBit j)) := by
    apply Finset.ext
    intro j
    simp only [Finset.mem_insert, Finset.mem_filter, Finset.mem_range]
    constructor
    · rintro ⟨hj32, hjset⟩
      by_cases hij : j = i
      · exact Or.inl hij
      · refine Or.inr ⟨hj32, ?_⟩
        rw [testBit_clear_lt j hj32, hjset]
        have hij2 : ¬i = j := fun hh => hij hh.symm
        simp [hij2]
    · rintro (hij | ⟨hj32, hjset⟩)
      · exact ⟨hij ▸ hi, hij ▸ hset⟩
      · rw [testBit_clear_lt j hj32] at hjset
        exact ⟨hj32, (Bool.and_eq_true_iff.mp hjset).1⟩
  have hnotmem : i ∉ (Finset.range 32).filter
      (fun j => (bitmap &&& (UINT32_MASK ^^^ (1 <<< i))).testBit j) := by
    intro hmem
    have hb := (Finset.mem_filter.mp hmem).2
    rw [testBit_clear_lt i hi] at hb
    simp at hb
  rw [hsplit, Finset.card_insert_of_not_mem hnotmem]

/-- Setting a clear bit increments the bit count by one. -/
theorem count_free_bits_set {bitmap i : Nat} (hi : i < 32)
    (hclear : bitmap.testBit i = false) :
    count_free_bits (bitmap ||| (1 <<< i)) = count_free_bits bitmap + 1 := by
  unfold count_free_bits
  have hbit : ∀ j, (bitmap ||| (1 <<< i)).testBit j =
      (bitmap.testBit j || decide (i = j)) := by
    intro j
    rw [Nat.one_shiftLeft, Nat.testBit_lor, Nat.testBit_two_pow]
  have hsplit : (Finset.range 32).filter
      (fun j => (bitmap ||| (1 <<< i)).testBit j) =
      insert i ((Finset.range 32).filter (fun j => bitmap.testBit j)) := by
    apply Finset.ext
    intro j
    simp only [Finset.mem_insert, Finset.mem_filter, Finset.mem_range, hbit]
    constructor
    · rintro ⟨hj32, hjset⟩
      rcases Bool.or_eq_true_iff.mp hjset with h1 | h2
      · exact Or.inr ⟨hj32, h1⟩
      · exact Or.inl (of_decide_eq_true h2).symm
    · rintro (hij | ⟨hj32, hjset⟩)
      · exact ⟨hij ▸ hi, by simp [hij]⟩
      · exact ⟨hj32, by simp [hjset]⟩
  have hnotmem : i ∉ (Finset.range 32).filter (fun j => bitmap.testBit j) := by
    intro hmem
    have hb := (Finset.mem_filter.mp hmem).2
    rw [hclear] at hb
    exact Bool.noConfusion hb
  rw [hsplit, Finset.card_insert_of_not_mem hnotmem]

/-- `pool_init` establishes the pool invariant. -/
theorem pool_init_inv (object_size max_objects : Nat) (mem0 : Nat → Nat)
    (h1 : 0 < object_size) (h2 : max_objects ≤ 32) :
    PoolInv (pool_init object_size max_objects mem0) := by
  have htot : pool_total (pool_init object_size max_objects mem0).pool =
      max_objects := by
    unfold pool_total pool_init
    exact Nat.mul_div_cancel_left max_objects h1
  refine ⟨h1, ?_, ?_, ?_, ?_⟩
  · rw [htot]; exact h2
  · rw [htot]; rfl
  · rw [htot]
    exact Nat.sub_lt (Nat.pos_pow_of_pos _ (by norm_num)) (by norm_num)
  · exact (count_free_bits_all_ones h2).symm

/-- A successful `find_free_bit` returns a set bit below 32. -/
theorem find_free_bit_some {bitmap i : Nat}
    (h : find_free_bit bitmap = some i) :
    bitmap.testBit i = true ∧ i < 32 := by
  unfold find_free_bit at h
  split at h
  · exact Option.noConfusion h
  · exact ⟨List.find?_some h,
      List.mem_range.mp (List.mem_of_find?_eq_some h)⟩

/-- A set bit of a bitmap below `2^total` lies below `total`. -/
theorem testBit_lt_total {bitmap total i : Nat}
    (hb : bitmap < 2 ^ total) (hi : bitmap.testBit i = true) : i < total := by
  have hge : 2 ^ i ≤ bitmap := Nat.testBit_implies_ge hi
  exact (Nat.pow_lt_pow_iff_right (by norm_num)).mp (Nat.lt_of_le_of_lt hge hb)

/-- What a successful `pool_alloc` yields: the invariant is preserved,
the slot count is unchanged, the offset is slot-aligned and in bounds,
and the slot's bytes are zeroed. -/
theorem pool_alloc_some {s : PoolState} {off : Nat} {s2 : PoolState}
    (hinv : PoolInv s) (h : pool_alloc s = some (off, s2)) :
    PoolInv s2 ∧ pool_total s2.pool = pool_total s.pool ∧
    off % s.pool.object_size = 0 ∧
    off + s.pool.object_size ≤ s.pool.pool_size ∧
    (∀ b, off ≤ b → b < off + s.pool.object_size → s2.mem b = 0) := by
  obtain ⟨hosz, h32, hps, hbm, hfc⟩ := hinv
  unfold pool_alloc at h
  split at h
  · exact Option.noConfusion h
  · rename_i hfc0
    split at h
    · exact Option.noConfusion h
    · rename_i i hfind
      obtain ⟨hset, hi32⟩ := find_free_bit_some hfind
      have hitot : i < pool_total s.pool := testBit_lt_total hbm hset
      have h2 := Option.some.inj h
      have hoff : i * s.pool.object_size = off := congrArg Prod.fst h2
      have hs2 := congrArg Prod.snd h2
      subst hoff
      subst hs2
      refine ⟨⟨hosz, ?_, ?_, ?_, ?_⟩, ?_, ?_, ?_, ?_⟩
      · exact h32
      · exact hps
      · exact Nat.lt_of_le_of_lt Nat.and_le_left hbm
      · show s.pool.free_count - 1 =
          count_free_bits (s.pool.free_bitmap &&& (UINT32_MASK ^^^ (1 <<< i)))
        have hclear := count_free_bits_clear hi32 hset
        omega
      · rfl
      · exact Nat.mul_mod_left _ _
      · calc i * s.pool.object_size + s.pool.object_size
            = (i + 1) * s.pool.object_size := by ring
          _ ≤ pool_total s.pool * s.pool.object_size :=
            Nat.mul_le_mul_right _ hitot
          _ = s.pool.object_size * pool_total s.pool := Nat.mul_comm _ _
          _ = s.pool.pool_size := hps.symm
      · intro b hb1 hb2
        simp only []
        rw [if_pos ⟨hb1, hb2⟩]

/-- `pool_free` preserves the invariant (and the slot count). -/
theorem pool_free_inv {s : PoolState} (ptr : Option Int) (hinv : PoolInv s) :
    PoolInv (pool_free s ptr).2 ∧
    pool_total (pool_free s ptr).2.pool = pool_total s.pool := by
  obtain ⟨hosz, h32, hps, hbm, hfc⟩ := hinv
  cases ptr with
  | none => exact ⟨⟨hosz, h32, hps, hbm, hfc⟩, rfl⟩
  | some p =>
    simp only [pool_free]
    split
    · exact ⟨⟨hosz, h32, hps, hbm, hfc⟩, rfl⟩
    · rename_i index hgoi
      by_cases hbit : s.pool.free_bitmap.testBit index = true
      · rw [if_pos hbit]
        exact ⟨⟨hosz, h32, hps, hbm, hfc⟩, rfl⟩
      · rw [if_neg hbit]
        have hidx : index < pool_total s.pool := by
          unfold get_object_index at hgoi
          split at hgoi
          · exact Option.noConfusion hgoi
          · split at hgoi
            · exact Option.noConfusion hgoi
            · rename_i hneg hlt
              have heq := Option.some.inj hgoi
              subst heq
              have hplt : p.toNat < s.pool.pool_size := by omega
              rw [hps] at hplt
              unfold pool_total
              exact Nat.div_lt_of_lt_mul hplt
        have hi32 : index < 32 := Nat.lt_of_lt_of_le hidx h32
        refine ⟨⟨hosz, h32, hps, ?_, ?_⟩, rfl⟩
        · show s.pool.free_bitmap ||| (1 <<< index) < 2 ^ pool_total s.pool
          rw [Nat.one_shiftLeft]
          exact Nat.or_lt_two_pow hbm
            (Nat.pow_lt_pow_right (by norm_num) hidx)
        · show s.pool.free_count + 1 =
            count_free_bits (s.pool.free_bitmap ||| (1 <<< index))
          rw [count_free_bits_set hi32 (Bool.eq_false_iff.mpr hbit), hfc]

/-- The invariant holds after any operation sequence. -/
theorem pool_run_inv {s : PoolState} (ops : List PoolOp) (hinv : PoolInv s) :
    PoolInv (pool_run s ops) := by
  induction ops generalizing s with
  | nil => exact hinv
  | cons op rest ih =>
    cases op with
    | alloc =>
      unfold pool_run
      cases halloc : pool_alloc s with
      | none => exact ih hinv
      | some pr =>
        obtain ⟨off, s2⟩ := pr
        exact ih (pool_alloc_some hinv halloc).1
    | free_ptr ptr =>
      unfold pool_run
      exact ih (pool_free_inv ptr hinv).1

/-- The invariant implies the claimed consistency properties.  The first
conjunct is `used + free == total` with `used` as `pool_get_stats`
computes it (`total - free_count`); it is meaningful because the
invariant bounds `free_count` by the slot count. -/
theorem pool_consistent_of_inv {s : PoolState} (hinv : PoolInv s) :
    pool_consistent s := by
  refine ⟨?_, ?_, ?_⟩
  · obtain ⟨hosz, h32, hps, hbm, hfc⟩ := hinv
    have hle : s.pool.free_count ≤ pool_total s.pool := by
      rw [hfc]; exact count_free_bits_le hbm
    omega
  · intro off s2 halloc
    obtain ⟨_, _, h3, h4, h5⟩ := pool_alloc_some hinv halloc
    exact ⟨h3, h4, h5⟩
  · intro ptr index hgoi hbit
    simp only [pool_free, hgoi]
    rw [if_pos hbit]

/-- Claim C6: for every pool (positive slot size, at most 32 slots) and
every finite sequence of `pool_alloc` / `pool_free` calls starting from
`pool_init` (as performed by `memory_pools_init`), the resulting state
satisfies: `used + free == total`; every successful `pool_alloc` returns
a slot-aligned in-bounds offset whose slot bytes are zero-filled; and
`pool_free` of an already-free slot returns false and leaves the pool
unchanged. -/
theorem pool_sequences_consistent (object_size max_objects : Nat)
    (mem0 : Nat → Nat) (ops : List PoolOp)
    (h1 : 0 < object_size) (h2 : max_objects ≤ 32) :
    pool_consistent (pool_run (pool_init object_size max_objects mem0) ops) :=
  pool_consistent_of_inv
    (pool_run_inv ops (pool_init_inv object_size max_objects mem0 h1 h2))

/-- Witness for C6 at the small-stack pool (slot size 512, 4 slots,
memory.c `pool_init(&stack_small_pool_mgr, ...)`) after an alloc, a
valid free and a double free. -/
theorem pool_sequences_consistent_witness :
    0 < 512 ∧ (4 : Nat) ≤ 32 ∧
    pool_consistent (pool_run (pool_init 512 4 (fun _ => 7))
      [PoolOp.alloc, PoolOp.free_ptr (some 0), PoolOp.free_ptr (some 0)]) :=
  ⟨by decide, by decide,
    pool_sequences_consistent 512 4 (fun _ => 7)
      [PoolOp.alloc, PoolOp.free_ptr (some 0), PoolOp.free_ptr (some 0)]
      (by decide) (by decide)⟩

/-- Claim C7 counterexample: the pointer at offset 1 is inside the pool
but NOT aligned to a slot boundary (1 % 512 != 0), yet `pool_free`
accepts it — `get_object_index` truncates `offset / object_size` to the
containing slot (index 0, which is allocated) and frees it, returning
true where the claim requires false. -/
theorem pool_free_accepts_misaligned_pointer :
    ((1 : Nat) % c7_pool.pool.object_size ≠ 0) ∧
    get_object_index c7_pool.pool 1 = some 0 ∧
    (pool_free c7_pool (some 1)).1 = true := by
  refine ⟨by decide, by decide, by decide⟩

/-- Claim C7 (amended): `pool_free` computes the slot index as
`offset / object_size` and returns false (refusing to free) whenever the
pointer is nil or outside the pool's range; a misaligned in-range
pointer is NOT rejected — it is truncated to the containing slot's
index. -/
theorem pool_free_rejects_out_of_range (s : PoolState) (ptr : Int) :
    pool_free s none = (false, s) ∧
    (ptr < 0 ∨ (s.pool.pool_size : Int) ≤ ptr →
      pool_free s (some ptr) = (false, s)) ∧
    (0 ≤ ptr → ptr < (s.pool.pool_size : Int) →
      get_object_index s.pool ptr = some (ptr.toNat / s.pool.object_size)) := by
  refine ⟨rfl, ?_, ?_⟩
  · intro hout
    have hgoi : get_object_index s.pool ptr = none := by
      unfold get_object_index
      rcases hout with hneg | hge
      · rw [if_pos hneg]
      · rw [if_neg (by omega), if_pos hge]
    simp only [pool_free, hgoi]
  · intro h0 hlt
    unfold get_object_index
    rw [if_neg (by omega), if_neg (by omega)]

/-- Witness for C7's amended theorem on a fresh 512-byte 4-slot pool: a
pointer past the end is refused, an in-range pointer maps to
`offset / object_size`. -/
theorem pool_free_rejects_out_of_range_witness :
    pool_free (pool_init 512 4 (fun _ => 0)) none =
      (false, pool_init 512 4 (fun _ => 0)) ∧
    pool_free (pool_init 512 4 (fun _ => 0)) (some 5000) =
      (false, pool_init 512 4 (fun _ => 0)) ∧
    get_object_index (pool_init 512 4 (fun _ => 0)).pool 600 = some 1 :=
  ⟨(pool_free_rejects_out_of_range (pool_init 512 4 (fun _ => 0)) 5000).1,
   (pool_free_rejects_out_of_range (pool_init 512 4 (fun _ => 0)) 5000).2.1
     (by right; decide),
   (pool_free_rejects_out_of_range (pool_init 512 4 (fun _ => 0)) 600).2.2
     (by decide) (by decide)⟩

/-- A number whose `n & (n-1)` vanishes is zero or a power of two
(the fast path of `cb_init`'s rounding). -/
theorem pow2_of_land_pred {n : Nat} (hn : n ≠ 0) (h : n &&& (n - 1) = 0) :
    ∃ j, n = 2 ^ j := by
  induction n using Nat.strong_induction_on with
  | _ n ih =>
    rcases Nat.even_or_odd n with he | ho
    · obtain ⟨k, hk⟩ := he
      have hk2 : n = 2 * k := by omega
      have hkpos : k ≠ 0 := by
        intro h0; exact hn (by omega)
      have hd : (n &&& (n - 1)) / 2 = n / 2 &&& (n - 1) / 2 :=
        Nat.and_div_two
      rw [h] at hd
      have hn2 : n / 2 = k := by omega
      have hn12 : (n - 1) / 2 = k - 1 := by omega
      rw [hn2, hn12] at hd
      obtain ⟨j, hj⟩ := ih k (by omega) hkpos hd.symm
      exact ⟨j + 1, by rw [hk2, hj, Nat.pow_succ]; ring⟩
    · obtain ⟨k, hk⟩ := ho
      by_cases hk0 : k = 0
      · exact ⟨0, by omega⟩
      · exfalso
        have hd : (n &&& (n - 1)) / 2 = n / 2 &&& (n - 1) / 2 :=
          Nat.and_div_two
        rw [h] at hd
        have hn2 : n / 2 = k := by omega
        have hn12 : (n - 1) / 2 = k := by omega
        rw [hn2, hn12, Nat.and_self] at hd
        exact hk0 hd.symm

/-- The doubling loop returns a power of two at least `capacity`. -/
theorem grow_pow2_spec (capacity k : Nat) :
    ∃ j, grow_pow2 capacity k = 2 ^ j ∧ capacity ≤ 2 ^ j := by
  by_cases h : 2 ^ k < capacity
  · rw [grow_pow2, if_pos h]
    exact grow_pow2_spec capacity (k + 1)
  · rw [grow_pow2, if_neg h]
    exact ⟨k, rfl, Nat.le_of_not_lt h⟩
termination_by capacity - 2 ^ k
decreasing_by
  have h1 : 2 ^ k < 2 ^ (k + 1) := Nat.pow_lt_pow_succ (by norm_num)
  omega

/-- The rounded capacity is a power of two at least 1. -/
theorem cb_round_capacity_pow2 {capacity : Nat} (h : capacity ≠ 0) :
    ∃ j, cb_round_capacity capacity = 2 ^ j := by
  unfold cb_round_capacity
  by_cases hfast : capacity &&& (capacity - 1) = 0
  · rw [if_pos hfast]
    exact pow2_of_land_pred h hfast
  · rw [if_neg hfast]
    obtain ⟨j, hj, _⟩ := grow_pow2_spec capacity 0
    exact ⟨j, hj⟩

theorem cb_contents_length {α : Type} (cb : circular_buffer_t α) :
    (cb_contents cb).length = cb.size := by
  unfold cb_contents
  rw [List.length_map, List.length_range]

/-- With the invariant, `x & mask` is `x % capacity`. -/
theorem cb_mask_mod {α : Type} {cb : circular_buffer_t α} (hinv : CBInv cb)
    (x : Nat) : x &&& cb.mask = x % cb.capacity := by
  obtain ⟨⟨j, hj⟩, hm, _, _, _⟩ := hinv
  rw [hm, hj]
  exact Nat.and_pow_two_sub_one_eq_mod x j

theorem cb_capacity_pos {α : Type} {cb : circular_buffer_t α}
    (hinv : CBInv cb) : 0 < cb.capacity := by
  obtain ⟨⟨j, hj⟩, _⟩ := hinv
  rw [hj]
  exact Nat.pos_pow_of_pos _ (by norm_num)

/-- Adding distinct offsets below the modulus keeps residues distinct. -/
theorem mod_add_inj {cap h i j : Nat} (hi : i < cap)
    (hj : j < cap) (he : (h + i) % cap = (h + j) % cap) : i = j := by
  have hmod : i % cap = j % cap :=
    Nat.ModEq.add_left_cancel' h he
  rwa [Nat.mod_eq_of_lt hi, Nat.mod_eq_of_lt hj] at hmod

/-- A successful `cb_init` yields an empty buffer satisfying the
invariant, with capacity the rounded (power-of-two) capacity. -/
theorem cb_init_some {α : Type} {buffer0 : Nat → α}
    {capacity element_size : Nat} {cb : circular_buffer_t α}
    (h : cb_init buffer0 capacity element_size = some cb) :
    CBInv cb ∧ cb_contents cb = [] ∧ cb.size = 0 ∧
    cb.capacity = cb_round_capacity capacity := by
  unfold cb_init at h
  split at h
  · exact Option.noConfusion h
  · rename_i hguard
    push_neg at hguard
    have hcb := Option.some.inj h
    subst hcb
    obtain ⟨j, hj⟩ := cb_round_capacity_pow2 hguard.1
    have hpos : 0 < cb_round_capacity capacity := by
      rw [hj]; exact Nat.pos_pow_of_pos _ (by norm_num)
    refine ⟨⟨⟨j, hj⟩, rfl, hpos, ?_, Nat.zero_le _⟩, ?_, rfl, rfl⟩
    · show (0 : Nat) = (0 + 0) % cb_round_capacity capacity
      rw [Nat.add_zero, Nat.zero_mod]
    · unfold cb_contents
      rfl

/-- `cb_put` fails exactly when the buffer is full. -/
theorem cb_put_full {α : Type} {cb : circular_buffer_t α} (v : α)
    (h : cb.size = cb.capacity) : cb_put cb v = none := by
  unfold cb_put cb_is_full
  rw [if_pos (by simp [h])]

/-- A successful `cb_put` preserves the invariant and appends the element
to the contents. -/
theorem cb_put_some {α : Type} {cb : circular_buffer_t α} (v : α)
    (hinv : CBInv cb) (hlt : cb.size < cb.capacity) :
    ∃ cb2, cb_put cb v = some cb2 ∧ CBInv cb2 ∧
      cb_contents cb2 = cb_contents cb ++ [v] ∧
      cb2.size = cb.size + 1 ∧ cb2.capacity = cb.capacity := by
  have hfull : cb_is_full cb = false := by
    unfold cb_is_full
    simp [Nat.ne_of_lt hlt]
  obtain ⟨hpow, hm, hh, ht, hs⟩ := hinv
  have hcap : 0 < cb.capacity := cb_capacity_pos ⟨hpow, hm, hh, ht, hs⟩
  refine ⟨{ cb with buffer := fun i => if i = cb.tail then v else cb.buffer i, tail := (cb.tail + 1) &&& cb.mask, size := cb.size + 1 }, ?_, ?_, ?_, rfl, rfl⟩
  · unfold cb_put
    rw [hfull]
    rfl
  · refine ⟨hpow, hm, hh, ?_, hlt⟩
    show (cb.tail + 1) &&& cb.mask = (cb.head + (cb.size + 1)) % cb.capacity
    rw [cb_mask_mod ⟨hpow, hm, hh, ht, hs⟩, ht, Nat.mod_add_mod]
    have harr : cb.head + cb.size + 1 = cb.head + (cb.size + 1) := by ring
    rw [harr]
  · show (List.range (cb.size + 1)).map
        (fun i => (fun k => if k = cb.tail then v else cb.buffer k)
          ((cb.head + i) % cb.capacity)) =
      cb_contents cb ++ [v]
    rw [List.range_succ, List.map_append]
    congr 1
    · unfold cb_contents
      apply List.map_congr_left
      intro i hi
      have hilt : i < cb.size := List.mem_range.mp hi
      have hne : (cb.head + i) % cb.capacity ≠ cb.tail := by
        rw [ht]
        intro he
        have := mod_add_inj (Nat.lt_of_lt_of_le hilt hs) hlt he
        omega
      simp only [if_neg hne]
    · have heq : (cb.head + cb.size) % cb.capacity = cb.tail := ht.symm
      simp [heq]

/-- A successful `cb_get` preserves the invariant and pops the head of
the contents. -/
theorem cb_get_some {α : Type} {cb : circular_buffer_t α}
    (hinv : CBInv cb) (hpos : 0 < cb.size) :
    ∃ v cb2, cb_get cb = some (v, cb2) ∧ CBInv cb2 ∧
      cb_contents cb = v :: cb_contents cb2 ∧
      cb2.size + 1 = cb.size ∧ cb2.capacity = cb.capacity := by
  have hempty : cb_is_empty cb = false := by
    unfold cb_is_empty
    simp [Nat.ne_of_gt hpos]
  obtain ⟨hpow, hm, hh, ht, hs⟩ := hinv
  have hcap : 0 < cb.capacity := cb_capacity_pos ⟨hpow, hm, hh, ht, hs⟩
  refine ⟨cb.buffer cb.head, { cb with head := (cb.head + 1) &&& cb.mask, size := cb.size - 1 }, ?_, ?_, ?_, show cb.size - 1 + 1 = cb.size by omega, rfl⟩
  · unfold cb_get
    rw [hempty]
    rfl
  · have hmm := cb_mask_mod ⟨hpow, hm, hh, ht, hs⟩
    refine ⟨hpow, hm, ?_, ?_, show cb.size - 1 ≤ cb.capacity by omega⟩
    · show (cb.head + 1) &&& cb.mask < cb.capacity
      rw [hmm]
      exact Nat.mod_lt _ hcap
    · show cb.tail = (((cb.head + 1) &&& cb.mask) + (cb.size - 1)) % cb.capacity
      rw [hmm, Nat.mod_add_mod, ht]
      have harr : cb.head + 1 + (cb.size - 1) = cb.head + cb.size := by omega
      rw [harr]
  · have hmm := cb_mask_mod ⟨hpow, hm, hh, ht, hs⟩
    unfold cb_contents
    have hsz : cb.size = (cb.size - 1) + 1 := by omega
    conv_lhs => rw [hsz]
    rw [List.range_succ_eq_map, List.map_cons]
    congr 1
    · show cb.buffer ((cb.head + 0) % cb.capacity) = cb.buffer cb.head
      rw [Nat.add_zero, Nat.mod_eq_of_lt hh]
    · rw [List.map_map]
      apply List.map_congr_left
      intro i _
      show cb.buffer ((cb.head + (i + 1)) % cb.capacity) =
        cb.buffer ((((cb.head + 1) &&& cb.mask) + i) % cb.capacity)
      rw [hmm, Nat.mod_add_mod]
      have harr : cb.head + (i + 1) = cb.head + 1 + i := by ring
      rw [harr]

/-- Simulation invariant of a run: the invariant and the capacity are
preserved, the gets followed by what remains buffered equal the initial
contents followed by the accepted puts, and sizes balance. -/
theorem cb_run_spec {α : Type} (cb : circular_buffer_t α)
    (ops : List (CBOp α)) (hinv : CBInv cb) :
    CBInv (cb_run cb ops).1 ∧
    (cb_run cb ops).1.capacity = cb.capacity ∧
    (cb_run cb ops).2.2 ++ cb_contents (cb_run cb ops).1 =
      cb_contents cb ++ (cb_run cb ops).2.1 ∧
    (cb_run cb ops).1.size + (cb_run cb ops).2.2.length =
      cb.size + (cb_run cb ops).2.1.length := by
  induction ops generalizing cb with
  | nil => exact ⟨hinv, rfl, by simp [cb_run], by simp [cb_run]⟩
  | cons op rest ih =>
    cases op with
    | put v =>
      show CBInv (cb_run cb (CBOp.put v :: rest)).1 ∧ _
      cases hput : cb_put cb v with
      | none =>
        simp only [cb_run, hput]
        exact ih cb hinv
      | some cb2 =>
        have hlt : cb.size < cb.capacity := by
          rcases Nat.lt_or_ge cb.size cb.capacity with h | h
          · exact h
          · have heq : cb.size = cb.capacity := Nat.le_antisymm hinv.2.2.2.2 h
            rw [cb_put_full v heq] at hput
            exact Option.noConfusion hput
        obtain ⟨cb3, heq, hinv2, hcont, hsz, hcap⟩ := cb_put_some v hinv hlt
        rw [heq] at hput
        have hcb2 : cb2 = cb3 := (Option.some.inj hput).symm
        subst hcb2
        obtain ⟨ih1, ih2, ih3, ih4⟩ := ih cb2 hinv2
        simp only [cb_run, heq]
        refine ⟨ih1, by rw [ih2, hcap], ?_, ?_⟩
        · show (cb_run cb2 rest).2.2 ++ cb_contents (cb_run cb2 rest).1 =
            cb_contents cb ++ (v :: (cb_run cb2 rest).2.1)
          rw [ih3, hcont, List.append_assoc]
          rfl
        · show (cb_run cb2 rest).1.size + (cb_run cb2 rest).2.2.length =
            cb.size + (v :: (cb_run cb2 rest).2.1).length
          rw [ih4, hsz]
          simp
          omega
    | get =>
      cases hget : cb_get cb with
      | none =>
        simp only [cb_run, hget]
        exact ih cb hinv
      | some pr =>
        have hpos : 0 < cb.size := by
          rcases Nat.eq_zero_or_pos cb.size with h | h
          · exfalso
            have : cb_get cb = none := by
              unfold cb_get cb_is_empty
              rw [if_pos (by simp [h])]
            rw [this] at hget
            exact Option.noConfusion hget
          · exact h
        obtain ⟨v, cb2, heq, hinv2, hcont, hsz, hcap⟩ := cb_get_some hinv hpos
        rw [heq] at hget
        have hpr : pr = (v, cb2) := (Option.some.inj hget).symm
        subst hpr
        obtain ⟨ih1, ih2, ih3, ih4⟩ := ih cb2 hinv2
        simp only [cb_run, heq]
        refine ⟨ih1, by rw [ih2, hcap], ?_, ?_⟩
        · show (v :: (cb_run cb2 rest).2.2) ++ cb_contents (cb_run cb2 rest).1 =
            cb_contents cb ++ (cb_run cb2 rest).2.1
          rw [List.cons_append, ih3, hcont]
          rfl
        · show (cb_run cb2 rest).1.size +
              (v :: (cb_run cb2 rest).2.2).length =
            cb.size + (cb_run cb2 rest).2.1.length
          simp only [List.length_cons]
          omega

/-- A run consisting only of puts returns no got-values. -/
theorem cb_run_puts_no_gets {α : Type} (cb : circular_buffer_t α)
    (vs : List α) : (cb_run cb (vs.map CBOp.put)).2.2 = [] := by
  induction vs generalizing cb with
  | nil => rfl
  | cons v rest ih =>
    show (cb_run cb (CBOp.put v :: rest.map CBOp.put)).2.2 = []
    cases hput : cb_put cb v with
    | none =>
      simp only [cb_run, hput]
      exact ih cb
    | some cb2 =>
      simp only [cb_run, hput]
      exact ih cb2

/-- Claim C8: for every initialized ring buffer and interleaving of
`cb_put` / `cb_get` calls with the failing calls discarded: the got
sequence is a prefix of the accepted put sequence; after `k` successful
puts and `m` successful gets the size is `k - m` (with `m <= k`);
a put on a full buffer fails with the buffer-full error; and no more
than `capacity` consecutive puts can all succeed. -/
theorem cb_fifo_capacity_size {α : Type} (buffer0 : Nat → α)
    (capacity element_size : Nat) (cb0 : circular_buffer_t α)
    (ops : List (CBOp α))
    (hinit : cb_init buffer0 capacity element_size = some cb0) :
    (∃ rest, (cb_run cb0 ops).2.1 = (cb_run cb0 ops).2.2 ++ rest) ∧
    (cb_run cb0 ops).1.size + (cb_run cb0 ops).2.2.length =
      (cb_run cb0 ops).2.1.length ∧
    (cb_run cb0 ops).2.2.length ≤ (cb_run cb0 ops).2.1.length ∧
    (∀ v, (cb_run cb0 ops).1.size = (cb_run cb0 ops).1.capacity →
      cb_put (cb_run cb0 ops).1 v = none) ∧
    (∀ vs : List α,
      (cb_run (cb_run cb0 ops).1 (vs.map CBOp.put)).2.1.length = vs.length →
      vs.length + (cb_run cb0 ops).1.size ≤ cb0.capacity) := by
  obtain ⟨hinv0, hcont0, hsz0, _⟩ := cb_init_some hinit
  obtain ⟨hinvf, hcapf, hrel, hszrel⟩ := cb_run_spec cb0 ops hinv0
  rw [hcont0] at hrel
  rw [hsz0] at hszrel
  simp only [List.nil_append, Nat.zero_add] at hrel hszrel
  refine ⟨⟨cb_contents (cb_run cb0 ops).1, hrel.symm⟩, hszrel, by omega, ?_, ?_⟩
  · intro v hfull
    exact cb_put_full v hfull
  · intro vs hlen
    obtain ⟨hinv2, hcap2, _, hsz2⟩ :=
      cb_run_spec (cb_run cb0 ops).1 (vs.map CBOp.put) hinvf
    rw [cb_run_puts_no_gets] at hsz2
    have hbound : (cb_run (cb_run cb0 ops).1 (vs.map CBOp.put)).1.size ≤
        (cb_run (cb_run cb0 ops).1 (vs.map CBOp.put)).1.capacity :=
      hinv2.2.2.2.2
    rw [hcap2, hcapf] at hbound
    simp only [List.length_nil] at hsz2
    omega

/-- Witness for C8 at the concrete buffer and interleaving. -/
theorem cb_fifo_capacity_size_witness :
    (∃ rest, (cb_run c8_cb0 c8_ops).2.1 = (cb_run c8_cb0 c8_ops).2.2 ++ rest) ∧
    (cb_run c8_cb0 c8_ops).1.size + (cb_run c8_cb0 c8_ops).2.2.length =
      (cb_run c8_cb0 c8_ops).2.1.length ∧
    (cb_run c8_cb0 c8_ops).2.2.length ≤ (cb_run c8_cb0 c8_ops).2.1.length ∧
    (∀ v, (cb_run c8_cb0 c8_ops).1.size = (cb_run c8_cb0 c8_ops).1.capacity →
      cb_put (cb_run c8_cb0 c8_ops).1 v = none) ∧
    (∀ vs : List Nat,
      (cb_run (cb_run c8_cb0 c8_ops).1 (vs.map CBOp.put)).2.1.length =
        vs.length →
      vs.length + (cb_run c8_cb0 c8_ops).1.size ≤ c8_cb0.capacity) :=
  cb_fifo_capacity_size (fun _ => 0) 4 4 c8_cb0 c8_ops rfl

/-- Claim C4: refuted by evaluation.  With task 1 blocked in
`queue_receive` (Blocked, `waiting_on` set, timeout armed),
`queue_delete` frees the buffer and the control block and returns; the
blocked task keeps `wake_reason = WAKE_REASON_NONE` (never Signal), stays
Blocked, is not added to the ready queue, and its timeout is not
cancelled (it stays on the delayed list, pointing at a freed object). -/
theorem queue_delete_leaves_waiters_blocked :
    (c4_blocked.tasks 1).state = TASK_BLOCKED ∧
    (c4_blocked.tasks 1).waiting_on = true ∧
    c4_deleted.queue = none ∧
    c4_deleted.tasks 1 = c4_blocked.tasks 1 ∧
    (c4_deleted.tasks 1).wake_reason = WAKE_REASON_NONE ∧
    (c4_deleted.tasks 1).state = TASK_BLOCKED ∧
    c4_deleted.ready = [] ∧
    c4_deleted.delayed = [1] := by
  refine ⟨rfl, rfl, rfl, rfl, rfl, rfl, rfl, rfl⟩

/-- Claim C9 counterexample: `task_create` with the EMPTY (non-nil) name
succeeds on fresh pools — the code checks only `!name`, so the empty
string is not rejected, contradicting the claim that it returns nil. -/
theorem task_create_accepts_empty_name :
    ((task_create (task_pools_init 64 (fun _ => 0)) true true (some "") 512 3).1).isSome = true := by
  rfl

set_option maxRecDepth 1000000 in
/-- Claim C9 (amended): `task_create` returns nil whenever the function
pointer is nil, the name is nil, or `priority > MAX_PRIORITY` (the empty
string is NOT rejected); and `stack_size = 0` does not fail but selects
the default stack size: on fresh pools the task is created with
`stack_size = DEFAULT_STACK_SIZE`. -/
theorem task_create_validation (p : TaskPools) (ready : Bool)
    (name : Option String) (stack_size priority : Nat)
    (tcb_size : Nat) (mem0 : Nat → Nat) (nm : String) (prio : Nat)
    (hprio : prio ≤ MAX_PRIORITY) :
    (task_create p ready false name stack_size priority).1 = none ∧
    (task_create p ready true none stack_size priority).1 = none ∧
    (priority > MAX_PRIORITY →
      (task_create p ready true name stack_size priority).1 = none) ∧
    (∃ t, (task_create (task_pools_init tcb_size mem0) true true (some nm)
        0 prio).1 = some t ∧ t.stack_size = DEFAULT_STACK_SIZE) := by
  refine ⟨?_, ?_, ?_, ?_⟩
  · unfold task_create
    split
    · rfl
    · unfold task_create_internal
      rw [if_pos (Or.inl (by simp))]
  · unfold task_create
    split
    · rfl
    · unfold task_create_internal
      rw [if_pos (Or.inr (Or.inl rfl))]
  · intro hbad
    unfold task_create
    split
    · rfl
    · unfold task_create_internal
      rw [if_pos (Or.inr (Or.inr (Or.inr hbad)))]
  · have hmain : (task_create_internal (task_pools_init tcb_size mem0) true
        (some nm) DEFAULT_STACK_SIZE prio).1 =
        some { stack_size := 1024, name := nm, priority := prio,
               state := TASK_READY } := by
      unfold task_create_internal
      rw [if_neg (by
        push_neg
        refine ⟨by simp, by simp, by decide, hprio⟩)]
      with_unfolding_all rfl
    exact ⟨_, hmain, rfl⟩

/-- Witness for C9 at concrete inputs: nil function, nil name and
priority 9 are rejected; `stack_size = 0` on fresh pools yields a task
with the default 1024-byte stack. -/
theorem task_create_validation_witness :
    (task_create (task_pools_init 64 (fun _ => 0)) true false (some "T") 512 9).1 = none ∧
    (task_create (task_pools_init 64 (fun _ => 0)) true true none 512 9).1 = none ∧
    ((9 : Nat) > MAX_PRIORITY →
      (task_create (task_pools_init 64 (fun _ => 0)) true true (some "T") 512 9).1 = none) ∧
    (∃ t, (task_create (task_pools_init 64 (fun _ => 0)) true true (some "T")
        0 3).1 = some t ∧ t.stack_size = DEFAULT_STACK_SIZE) :=
  task_create_validation (task_pools_init 64 (fun _ => 0)) true (some "T")
    512 9 64 (fun _ => 0) "T" 3 (by decide)

/-- Claim C10: refuted by evaluation.  `queue_create(5, 50)` allocates
the 256-byte slot (5 * 50 = 250 <= 256) but initializes the ring buffer
with capacity 8; after five successful puts the buffer is still not full
(size 5 < 8), so the sixth `cb_put` succeeds — and it writes bytes
[250, 300) of the 256-byte slot, 44 bytes past its end. -/
theorem queue_create_slot_overflow :
    queue_create 5 50 = some (c10_cb, 256) ∧
    (cb_run c10_cb ((List.range 5).map CBOp.put)).2.1.length = 5 ∧
    cb_is_full c10_after5 = false ∧
    (cb_put c10_after5 0).isSome = true ∧
    cb_put_write_span c10_after5 = (250, 300) ∧
    256 < (cb_put_write_span c10_after5).2 := by
  have hg : grow_pow2 5 0 = 8 := by
    rw [grow_pow2, if_pos (by norm_num), grow_pow2, if_pos (by norm_num),
        grow_pow2, if_pos (by norm_num), grow_pow2, if_neg (by norm_num)]
    norm_num
  refine ⟨?_, rfl, rfl, rfl, rfl, by decide⟩
  unfold queue_create queue_buffer_slot_size c10_cb
  norm_num [hg]
